import Mathlib

/-!
Shallow embedding of the CoDoc pipeline (src/nodes.py, src/utils/call_llm.py,
src/utils/nostr_publisher.py, src/flow.py) and proofs about its validation,
sanitization and output-assembly logic.

Python strings are modelled as lists of characters (`Str`); Python `int` as
`Int`; YAML values returned by `yaml.safe_load` as the inductive `YVal`;
code that raises exceptions as `Except String`.  String literals are written
as Lean string literals converted with `.data`.
-/

/-- Characters stripped by Python `str.strip()` (ASCII whitespace set). -/
def pyIsSpace (c : Char) : Bool :=
  c = ' ' || c = '\t' || c = '\n' || c = '\r' || c = '\x0b' || c = '\x0c'

/-- Python strings, modelled as lists of characters. -/
abbrev Str := List Char

/-- Python `s.strip()`: drop whitespace from both ends. -/
def pyStrip (s : Str) : Str :=
  ((s.dropWhile pyIsSpace).reverse.dropWhile pyIsSpace).reverse

/-- Python `sep in s` for a non-empty separator `sep` (substring containment). -/
def containsSub (sep : Str) : Str → Bool
  | [] => sep.isPrefixOf []
  | c :: rest => sep.isPrefixOf (c :: rest) || containsSub sep rest

/-- The part of `s` before the first occurrence of `sep`; all of `s` when
`sep` does not occur.  This is Python `s.split(sep)[0]`. -/
def beforeFirst (sep : Str) : Str → Str
  | [] => []
  | c :: rest =>
    if sep.isPrefixOf (c :: rest) then [] else c :: beforeFirst sep rest

/-- The part of `s` after the first occurrence of `sep` (empty when `sep`
does not occur).  When `sep` occurs, this is Python `s.split(sep, 1)[1]`. -/
def afterFirst (sep : Str) : Str → Str
  | [] => []
  | c :: rest =>
    if sep.isPrefixOf (c :: rest) then (c :: rest).drop sep.length
    else afterFirst sep rest

/-- Python `s.split(c)` for a single-character separator. -/
def splitOnChar (c : Char) : Str → List Str
  | [] => [[]]
  | a :: rest =>
    if a = c then [] :: splitOnChar c rest
    else
      match splitOnChar c rest with
      | [] => [[a]]
      | g :: gs => (a :: g) :: gs

/-- Python `sep.join(parts)` specialised to a single-character separator. -/
def joinWithChar (c : Char) : List Str → Str
  | [] => []
  | [g] => g
  | g :: gs => g ++ c :: joinWithChar c gs

/-- Value universe for data parsed out of oracle responses by
`yaml.safe_load` (and for JSON values loaded from the response cache):
integers, strings, sequences, string-keyed mappings and null. -/
inductive YVal : Type where
  | int (n : Int) : YVal
  | str (s : Str) : YVal
  | list (xs : List YVal) : YVal
  | map (kvs : List (Str × YVal)) : YVal
  | null : YVal

/-- Python `d[k]` / `k in d` on a mapping, modelled over the association
list: the first binding of the key wins. -/
def lookupKey (kvs : List (Str × YVal)) (k : Str) : Option YVal :=
  match kvs with
  | [] => none
  | (k', v) :: rest => if k' = k then some v else lookupKey rest k

/-- Numeric value of a digit string. -/
def digitsVal (ds : Str) : Int :=
  (ds.foldl (fun a c => a * 10 + (c.toNat - 48)) 0 : Nat)

/-- Python `int(s)` on a string: strip whitespace, optional sign, at least
one digit, nothing else (`none` models `ValueError`). -/
def pyInt (s : Str) : Option Int :=
  match pyStrip s with
  | [] => none
  | '+' :: ds => if ds ≠ [] && ds.all Char.isDigit then some (digitsVal ds) else none
  | '-' :: ds => if ds ≠ [] && ds.all Char.isDigit then some (-(digitsVal ds)) else none
  | ds => if ds.all Char.isDigit then some (digitsVal ds) else none

/-- Index-entry parsing shared by `IdentifyAbstractions.exec`
(src/nodes.py:493-500) and `OrderChapters.exec` (src/nodes.py:886-893):
a plain `int` is taken as is; a string containing `#` is parsed as
`int(entry.split("#")[0].strip())`; any other string as
`int(str(entry).strip())`.  For the remaining value shapes (sequences,
mappings, null) Python computes `int(str(entry).strip())` on a
representation such as `[...]` or `None`, which always raises, so they
parse to `none`. -/
def parseIndexEntry : YVal → Option Int
  | .int n => some n
  | .str s => if s.contains '#' then pyInt (pyStrip (beforeFirst ['#'] s)) else pyInt (pyStrip s)
  | _ => none

/-- A parsed index entry is good for bound `n` when it resolves to an
index in `[0, n)`. -/
def goodEntry (n : Nat) (e : YVal) : Prop :=
  ∃ i : Int, parseIndexEntry e = some i ∧ 0 ≤ i ∧ i < (n : Int)

instance (n : Nat) (e : YVal) : Decidable (goodEntry n e) := by
  unfold goodEntry
  cases h : parseIndexEntry e with
  | none => exact .isFalse (by simp [h])
  | some i => exact decidable_of_iff (0 ≤ i ∧ i < (n : Int)) (by simp [h])

/-- Validation loop of `OrderChapters.exec` (src/nodes.py:884-907): parse
each entry, reject out-of-range and duplicate indices, accumulate in
order.  `seen` models the `seen_indices` set. -/
def orderChaptersLoop (n : Nat) (seen : List Int) : List YVal → Except String (List Int)
  | [] => .ok []
  | e :: rest =>
    match parseIndexEntry e with
    | none => .error "Could not parse index from ordered list entry"
    | some idx =>
      if 0 ≤ idx ∧ idx < (n : Int) then
        if idx ∈ seen then .error "Could not parse index from ordered list entry"
        else
          match orderChaptersLoop n (idx :: seen) rest with
          | .error msg => .error msg
          | .ok idxs => .ok (idx :: idxs)
      else .error "Could not parse index from ordered list entry"

/-- Validation part of `OrderChapters.exec` (src/nodes.py:879-916): the
parsed response must be a list, every entry must resolve to a fresh
in-range index, and the final count must equal the number of
abstractions. -/
def orderChapters_exec (numAbstractions : Nat) (parsed : YVal) : Except String (List Int) :=
  match parsed with
  | .list entries =>
    match orderChaptersLoop numAbstractions [] entries with
    | .error msg => .error msg
    | .ok idxs =>
      if idxs.length = numAbstractions then .ok idxs
      else .error "Ordered list length does not match number of abstractions"
  | _ => .error "LLM output is not a list"

theorem mapM_option_cons {α β : Type} {f : α → Option β} {a : α} {rest : List α}
    {b : β} {out : List β} (hp : f a = some b)
    (hmap : (a :: rest).mapM f = some out) :
    ∃ tl, rest.mapM f = some tl ∧ out = b :: tl := by
  rw [List.mapM_cons, hp] at hmap
  rcases h' : rest.mapM f with - | tl
  · rw [h'] at hmap
    simp at hmap
  · rw [h'] at hmap
    simp only [Option.bind_eq_bind, Option.some_bind, Option.pure_def,
      Option.some.injEq] at hmap
    exact ⟨tl, rfl, hmap.symm⟩

theorem mapM_option_mem {α β : Type} {f : α → Option β} {es : List α}
    {out : List β} (hmap : es.mapM f = some out) {e : α} (he : e ∈ es) :
    ∃ b, f e = some b ∧ b ∈ out := by
  induction es generalizing out with
  | nil => cases he
  | cons a rest ih =>
    cases hp : f a with
    | none => rw [List.mapM_cons, hp] at hmap; simp at hmap
    | some b =>
      obtain ⟨tl, h', rfl⟩ := mapM_option_cons hp hmap
      rcases List.mem_cons.mp he with rfl | he'
      · exact ⟨b, hp, by simp⟩
      · obtain ⟨b', hb', hmem⟩ := ih h' he'
        exact ⟨b', hb', by simp [hmem]⟩

theorem orderChaptersLoop_ok_of (n : Nat) (entries : List YVal) (seen : List Int)
    (idxs : List Int) (h : orderChaptersLoop n seen entries = .ok idxs) :
    entries.mapM parseIndexEntry = some idxs ∧
      (∀ i ∈ idxs, 0 ≤ i ∧ i < (n : Int) ∧ i ∉ seen) ∧ idxs.Nodup := by
  induction entries generalizing seen idxs with
  | nil =>
    simp only [orderChaptersLoop, Except.ok.injEq] at h
    subst h
    exact ⟨rfl, by simp, List.nodup_nil⟩
  | cons e rest ih =>
    simp only [orderChaptersLoop] at h
    split at h
    · exact absurd h (by simp)
    next idx hp =>
      split at h
      next hrange =>
        split at h
        next hseen => exact absurd h (by simp)
        next hseen =>
          split at h
          next msg htl => exact absurd h (by simp)
          next tl htl =>
            simp only [Except.ok.injEq] at h
            subst h
            have hrest := ih (idx :: seen) tl htl
            refine ⟨by rw [List.mapM_cons, hp, hrest.1]; rfl, fun i hi => ?_, ?_⟩
            · rcases List.mem_cons.mp hi with rfl | hi'
              · exact ⟨hrange.1, hrange.2, hseen⟩
              · have h1 := hrest.2.1 i hi'
                exact ⟨h1.1, h1.2.1, fun hc => h1.2.2 (by simp [hc])⟩
            · refine List.nodup_cons.mpr ⟨?_, hrest.2.2⟩
              intro hc
              exact (hrest.2.1 idx hc).2.2 (by simp)
      next hrange => exact absurd h (by simp)

theorem orderChaptersLoop_ok_of_good (n : Nat) (entries : List YVal) (seen : List Int)
    (idxs : List Int) (hmap : entries.mapM parseIndexEntry = some idxs)
    (hgood : ∀ i ∈ idxs, 0 ≤ i ∧ i < (n : Int) ∧ i ∉ seen) (hnd : idxs.Nodup) :
    orderChaptersLoop n seen entries = .ok idxs := by
  induction entries generalizing seen idxs with
  | nil =>
    simp only [List.mapM_nil, Option.pure_def, Option.some.injEq] at hmap
    subst hmap
    rfl
  | cons e rest ih =>
    cases hp : parseIndexEntry e with
    | none =>
      rw [List.mapM_cons, hp] at hmap
      simp at hmap
    | some idx =>
      obtain ⟨tl, h', rfl⟩ := mapM_option_cons hp hmap
      have hhead := hgood idx (by simp)
      have htl : orderChaptersLoop n (idx :: seen) rest = .ok tl := by
        refine ih (idx :: seen) tl h' (fun i hi => ?_) hnd.of_cons
        have h1 := hgood i (by simp [hi])
        refine ⟨h1.1, h1.2.1, ?_⟩
        simp only [List.mem_cons, not_or]
        refine ⟨?_, h1.2.2⟩
        rintro rfl
        exact (List.nodup_cons.mp hnd).1 hi
      simp only [orderChaptersLoop, hp, if_pos (And.intro hhead.1 hhead.2.1),
        if_neg hhead.2.2, htl]

theorem orderChaptersLoop_ok_iff (n : Nat) (entries : List YVal) (seen : List Int)
    (idxs : List Int) :
    orderChaptersLoop n seen entries = .ok idxs ↔
      entries.mapM parseIndexEntry = some idxs ∧
      (∀ i ∈ idxs, 0 ≤ i ∧ i < (n : Int) ∧ i ∉ seen) ∧ idxs.Nodup :=
  ⟨orderChaptersLoop_ok_of n entries seen idxs,
   fun h => orderChaptersLoop_ok_of_good n entries seen idxs h.1 h.2.1 h.2.2⟩


/-- The list `[0, 1, ..., n-1]` as integers: the reference ordering that a
valid chapter order must be a permutation of. -/
def intRange (n : Nat) : List Int := List.map (fun k : Nat => (k : Int)) (List.range n)

theorem intRange_length (n : Nat) : (intRange n).length = n := by
  rw [intRange, List.length_map, List.length_range]

theorem intRange_nodup (n : Nat) : (intRange n).Nodup :=
  (List.nodup_range n).map Nat.cast_injective

theorem mem_intRange (n : Nat) (i : Int) :
    i ∈ intRange n ↔ 0 ≤ i ∧ i < (n : Int) := by
  rw [intRange, List.mem_map]
  constructor
  · rintro ⟨k, hk, rfl⟩
    rw [List.mem_range] at hk
    omega
  · rintro ⟨h0, hn⟩
    exact ⟨i.toNat, List.mem_range.mpr (by omega), by omega⟩

theorem perm_intRange_iff (n : Nat) (order : List Int) :
    order.Perm (intRange n) ↔
      order.length = n ∧ order.Nodup ∧ ∀ i ∈ order, 0 ≤ i ∧ i < (n : Int) := by
  constructor
  · intro hperm
    exact ⟨by rw [hperm.length_eq, intRange_length],
      hperm.nodup_iff.mpr (intRange_nodup n),
      fun i hi => (mem_intRange n i).mp (hperm.mem_iff.mp hi)⟩
  · rintro ⟨hlen, hnd, hbound⟩
    have hsub : order ⊆ intRange n := fun i hi => (mem_intRange n i).mpr (hbound i hi)
    have hle : (intRange n).length = order.length := by rw [intRange_length, hlen]
    exact (List.subperm_of_subset hnd hsub).perm_of_length_le (le_of_eq hle)

/-- C1: the Ordering Stage accepts exactly when the parsed response is a
sequence whose entries all resolve through `parseIndexEntry` (plain int,
numeric string, or int-hash-comment string) to the returned index list,
and that list is a permutation of `[0, n)`; on any duplicate,
out-of-range or unparseable entry, on a non-sequence response, and on
any length mismatch it fails, so it never returns a non-permutation. -/
theorem orderChapters_exec_ok_iff_permutation (n : Nat) (parsed : YVal)
    (order : List Int) :
    orderChapters_exec n parsed = .ok order ↔
      (∃ entries, parsed = .list entries ∧
        entries.mapM parseIndexEntry = some order) ∧
      order.Perm (intRange n) := by
  constructor
  · intro h
    simp only [orderChapters_exec] at h
    split at h
    next entries =>
      split at h
      next msg hloop => exact absurd h (by simp)
      next idxs hloop =>
        have hrest := orderChaptersLoop_ok_of n entries [] idxs hloop
        split at h
        next hlen =>
          simp only [Except.ok.injEq] at h
          subst h
          refine ⟨⟨entries, rfl, hrest.1⟩, (perm_intRange_iff n idxs).mpr ?_⟩
          exact ⟨hlen, hrest.2.2,
            fun i hi => ⟨(hrest.2.1 i hi).1, (hrest.2.1 i hi).2.1⟩⟩
        next hlen => exact absurd h (by simp)
    next => exact absurd h (by simp)
  · rintro ⟨⟨entries, heq, hmap⟩, hperm⟩
    subst heq
    obtain ⟨hlen, hnd, hbound⟩ := (perm_intRange_iff n order).mp hperm
    have hloop : orderChaptersLoop n [] entries = .ok order :=
      orderChaptersLoop_ok_of_good n entries [] order hmap
        (fun i hi => ⟨(hbound i hi).1, (hbound i hi).2, by simp⟩) hnd
    simp only [orderChapters_exec, hloop]
    rw [if_pos hlen]

/-- C1 witness: on a concrete two-abstraction run the stage accepts the
response list `[1, "0 # Core"]` and returns the permutation `[1, 0]`. -/
theorem orderChapters_exec_ok_iff_permutation_witness :
    orderChapters_exec 2 (.list [.int 1, .str ("0 # Core".data)]) = .ok [1, 0] := by
  have h := (orderChapters_exec_ok_iff_permutation 2
    (.list [.int 1, .str ("0 # Core".data)]) [1, 0]).mpr
  exact h ⟨⟨[.int 1, .str ("0 # Core".data)], rfl, by decide⟩, by decide⟩

/-- A validated abstraction as stored by `IdentifyAbstractions.exec`
(src/nodes.py:514-522): name, description, and the validated, deduplicated,
sorted file-index list. -/
structure Abstraction : Type where
  name : Str
  description : Str
  files : List Int
deriving DecidableEq

/-- Python `sorted(list(set(xs)))` (src/nodes.py:512). -/
def sortedDedup (xs : List Int) : List Int :=
  (xs.dedup).insertionSort (· ≤ ·)

/-- Index validation loop of `IdentifyAbstractions.exec`
(src/nodes.py:492-510): parse each entry of `file_indices`, reject
anything unparseable or outside `[0, fileCount)`; both failures raise,
aborting the stage. -/
def validateIndices (fileCount : Nat) : List YVal → Except String (List Int)
  | [] => .ok []
  | e :: rest =>
    match parseIndexEntry e with
    | none => .error "Could not parse index from entry"
    | some idx =>
      if 0 ≤ idx ∧ idx < (fileCount : Int) then
        match validateIndices fileCount rest with
        | .error msg => .error msg
        | .ok idxs => .ok (idx :: idxs)
      else .error "Could not parse index from entry"

/-- Per-item validation of `IdentifyAbstractions.exec`
(src/nodes.py:479-522): the item must be a mapping with `name`,
`description` and `file_indices` keys, name and description must be
strings, `file_indices` must be a sequence of valid indices; the stored
`files` list is `sorted(list(set(validated_indices)))`. -/
def validateAbstractionItem (fileCount : Nat) (item : YVal) : Except String Abstraction :=
  match item with
  | .map kvs =>
    match lookupKey kvs ("name".data), lookupKey kvs ("description".data),
        lookupKey kvs ("file_indices".data) with
    | some nv, some dv, some fv =>
      match nv with
      | .str name =>
        match dv with
        | .str desc =>
          match fv with
          | .list entries =>
            match validateIndices fileCount entries with
            | .error msg => .error msg
            | .ok idxs => .ok ⟨name, desc, sortedDedup idxs⟩
          | _ => .error "file_indices is not a list in item"
        | _ => .error "Description is not a string in item"
      | _ => .error "Name is not a string in item"
    | _, _, _ => .error "Missing keys in abstraction item"
  | _ => .error "Missing keys in abstraction item"

/-- Sequential accumulation with fail-fast error propagation: the shape of
every per-item validation loop in src/nodes.py (an exception raised for
one item aborts the whole stage). -/
def mapExcept {α β : Type} (f : α → Except String β) : List α → Except String (List β)
  | [] => .ok []
  | a :: as =>
    match f a with
    | .error e => .error e
    | .ok b =>
      match mapExcept f as with
      | .error e => .error e
      | .ok bs => .ok (b :: bs)

/-- Validation part of `IdentifyAbstractions.exec` (src/nodes.py:472-525):
the parsed response must be a list and every item must validate. -/
def identifyAbstractions_exec (fileCount : Nat) (parsed : YVal) :
    Except String (List Abstraction) :=
  match parsed with
  | .list items => mapExcept (validateAbstractionItem fileCount) items
  | _ => .error "LLM Output is not a list"

theorem validateIndices_ok_iff (fileCount : Nat) (es : List YVal) (idxs : List Int) :
    validateIndices fileCount es = .ok idxs ↔
      es.mapM parseIndexEntry = some idxs ∧
      ∀ i ∈ idxs, 0 ≤ i ∧ i < (fileCount : Int) := by
  induction es generalizing idxs with
  | nil =>
    simp only [validateIndices, Except.ok.injEq]
    constructor
    · rintro rfl
      exact ⟨rfl, by simp⟩
    · rintro ⟨hmap, -⟩
      simp only [List.mapM_nil, Option.pure_def, Option.some.injEq] at hmap
      exact hmap
  | cons e rest ih =>
    constructor
    · intro h
      simp only [validateIndices] at h
      split at h
      · exact absurd h (by simp)
      next idx hp =>
        split at h
        next hrange =>
          split at h
          next msg htl => exact absurd h (by simp)
          next tl htl =>
            simp only [Except.ok.injEq] at h
            subst h
            have hrest := (ih tl).mp htl
            refine ⟨by rw [List.mapM_cons, hp, hrest.1]; rfl, fun i hi => ?_⟩
            rcases List.mem_cons.mp hi with rfl | hi'
            · exact hrange
            · exact hrest.2 i hi'
        next hrange => exact absurd h (by simp)
    · rintro ⟨hmap, hbound⟩
      cases hp : parseIndexEntry e with
      | none => rw [List.mapM_cons, hp] at hmap; simp at hmap
      | some idx =>
        obtain ⟨tl, h', rfl⟩ := mapM_option_cons hp hmap
        have htl : validateIndices fileCount rest = .ok tl :=
          (ih tl).mpr ⟨h', fun i hi => hbound i (by simp [hi])⟩
        simp only [validateIndices, hp, if_pos (hbound idx (by simp)), htl]

theorem mapExcept_ok_mem {α β : Type} {f : α → Except String β} {items : List α}
    {out : List β} (h : mapExcept f items = .ok out) :
    (∀ a ∈ items, ∃ b ∈ out, f a = .ok b) ∧
      (∀ b ∈ out, ∃ a ∈ items, f a = .ok b) := by
  induction items generalizing out with
  | nil =>
    simp only [mapExcept, Except.ok.injEq] at h
    subst h
    exact ⟨by simp, by simp⟩
  | cons a rest ih =>
    simp only [mapExcept] at h
    split at h
    next e ha => exact absurd h (by simp)
    next b ha =>
      split at h
      next e htl => exact absurd h (by simp)
      next bs htl =>
        simp only [Except.ok.injEq] at h
        subst h
        obtain ⟨fwd, bwd⟩ := ih htl
        constructor
        · intro x hx
          rcases List.mem_cons.mp hx with rfl | hx'
          · exact ⟨b, by simp, ha⟩
          · obtain ⟨y, hy, hfy⟩ := fwd x hx'
            exact ⟨y, by simp [hy], hfy⟩
        · intro y hy
          rcases List.mem_cons.mp hy with rfl | hy'
          · exact ⟨a, by simp, ha⟩
          · obtain ⟨x, hx, hfx⟩ := bwd y hy'
            exact ⟨x, by simp [hx], hfx⟩

theorem sortedDedup_sorted (xs : List Int) :
    (sortedDedup xs).Sorted (· < ·) := by
  have hnd : (sortedDedup xs).Nodup :=
    (List.perm_insertionSort (· ≤ ·) xs.dedup).nodup_iff.mpr (List.nodup_dedup xs)
  exact (List.sorted_insertionSort (· ≤ ·) xs.dedup).lt_of_le hnd

theorem mem_sortedDedup (xs : List Int) (i : Int) :
    i ∈ sortedDedup xs ↔ i ∈ xs := by
  rw [sortedDedup]
  rw [(List.perm_insertionSort (· ≤ ·) xs.dedup).mem_iff]
  exact List.mem_dedup

theorem sortedDedup_nodup (xs : List Int) : (sortedDedup xs).Nodup :=
  (List.perm_insertionSort (· ≤ ·) xs.dedup).nodup_iff.mpr (List.nodup_dedup xs)

theorem validateAbstractionItem_ok {N : Nat} {item : YVal} {a : Abstraction}
    (h : validateAbstractionItem N item = .ok a) :
    ∃ kvs es idxs, item = .map kvs ∧
      lookupKey kvs ("file_indices".data) = some (.list es) ∧
      validateIndices N es = .ok idxs ∧ a.files = sortedDedup idxs := by
  simp only [validateAbstractionItem] at h
  split at h
  next kvs =>
    split at h
    next nv dv fv h1 h2 h3 =>
      split at h
      next name =>
        split at h
        next desc =>
          split at h
          next entries =>
            split at h
            next msg hidx => exact absurd h (by simp)
            next idxs hidx =>
              refine ⟨kvs, entries, idxs, rfl, ?_, hidx, ?_⟩
              · exact h3
              · simp only [Except.ok.injEq] at h
                subst h
                rfl
          next hne => exact absurd h (by simp)
        next hne => exact absurd h (by simp)
      next hne => exact absurd h (by simp)
    next hne => exact absurd h (by simp)
  next hne => exact absurd h (by simp)

theorem validateAbstractionItem_error_of_badEntry {N : Nat} {kvs : List (Str × YVal)}
    {es : List YVal} (hfi : lookupKey kvs ("file_indices".data) = some (.list es))
    (hbad : ∃ e ∈ es, ¬ goodEntry N e) :
    ∀ a, validateAbstractionItem N (.map kvs) ≠ .ok a := by
  intro a h
  obtain ⟨kvs', es', idxs, heq, hfi', hidx, -⟩ := validateAbstractionItem_ok h
  obtain rfl : kvs = kvs' := by injection heq
  rw [hfi] at hfi'
  obtain rfl : es = es' := by
    have := Option.some.inj hfi'
    injection this
  obtain ⟨hmap, hbound⟩ := (validateIndices_ok_iff N es idxs).mp hidx
  obtain ⟨e, hmem, hng⟩ := hbad
  obtain ⟨b, hb, hbmem⟩ := mapM_option_mem hmap hmem
  exact hng ⟨b, hb, hbound b hbmem⟩

/-- C2: in the Abstraction Stage over `N` corpus files, an accepted result
has every abstraction's `files` list strictly sorted, duplicate-free and
inside `[0, N)`; and if any item carries a `file_indices` entry that does
not resolve to an in-range index (unparseable or out of range), the whole
stage fails — nothing is silently dropped and no partial result is
returned. -/
theorem identifyAbstractions_exec_index_validation (N : Nat) (parsed : YVal) :
    (∀ out, identifyAbstractions_exec N parsed = .ok out →
        ∀ a ∈ out, a.files.Sorted (· < ·) ∧ a.files.Nodup ∧
          ∀ i ∈ a.files, 0 ≤ i ∧ i < (N : Int)) ∧
    (∀ items kvs es, parsed = .list items → YVal.map kvs ∈ items →
        lookupKey kvs ("file_indices".data) = some (.list es) →
        (∃ e ∈ es, ¬ goodEntry N e) →
        ∃ msg, identifyAbstractions_exec N parsed = .error msg) := by
  constructor
  · intro out hok a ha
    cases parsed with
    | list items =>
      simp only [identifyAbstractions_exec] at hok
      obtain ⟨-, bwd⟩ := mapExcept_ok_mem hok
      obtain ⟨item, -, hitem⟩ := bwd a ha
      obtain ⟨kvs, es, idxs, -, -, hidx, hfiles⟩ := validateAbstractionItem_ok hitem
      obtain ⟨-, hbound⟩ := (validateIndices_ok_iff N es idxs).mp hidx
      refine ⟨hfiles ▸ sortedDedup_sorted idxs, hfiles ▸ sortedDedup_nodup idxs,
        fun i hi => ?_⟩
      rw [hfiles] at hi
      exact hbound i ((mem_sortedDedup idxs i).mp hi)
    | int m => exact absurd hok (by simp [identifyAbstractions_exec])
    | str s => exact absurd hok (by simp [identifyAbstractions_exec])
    | map kvs => exact absurd hok (by simp [identifyAbstractions_exec])
    | null => exact absurd hok (by simp [identifyAbstractions_exec])
  · rintro items kvs es rfl hmem hfi hbad
    simp only [identifyAbstractions_exec]
    cases hres : mapExcept (validateAbstractionItem N) items with
    | error msg => exact ⟨msg, rfl⟩
    | ok out =>
      obtain ⟨fwd, -⟩ := mapExcept_ok_mem hres
      obtain ⟨b, -, hb⟩ := fwd (.map kvs) hmem
      exact absurd hb (validateAbstractionItem_error_of_badEntry hfi hbad b)

/-- C2 witness: a concrete three-file run whose only abstraction lists the
index entries `2`, `"2"`, `"0 # main.py"`, `1` (all three accepted forms,
with a duplicate) is accepted with `files` stored as `[0, 1, 2]`, and the
claim theorem yields sortedness, dedup and bounds for it. -/
theorem identifyAbstractions_exec_index_validation_witness :
    identifyAbstractions_exec 3 (.list [.map [("name".data, .str ("Core".data)),
        ("description".data, .str ("d".data)),
        ("file_indices".data, .list [.int 2, .str ("2".data),
          .str ("0 # main.py".data), .int 1])]]) =
      .ok [⟨"Core".data, "d".data, [0, 1, 2]⟩] ∧
    ([0, 1, 2] : List Int).Sorted (· < ·) ∧ ([0, 1, 2] : List Int).Nodup ∧
    (0 : Int) ≤ 2 ∧ (2 : Int) < 3 := by
  have hok : identifyAbstractions_exec 3 (.list [.map [("name".data, .str ("Core".data)),
        ("description".data, .str ("d".data)),
        ("file_indices".data, .list [.int 2, .str ("2".data),
          .str ("0 # main.py".data), .int 1])]]) =
      .ok [⟨"Core".data, "d".data, [0, 1, 2]⟩] := by rfl
  have h := (identifyAbstractions_exec_index_validation 3
    (.list [.map [("name".data, .str ("Core".data)),
        ("description".data, .str ("d".data)),
        ("file_indices".data, .list [.int 2, .str ("2".data),
          .str ("0 # main.py".data), .int 1])]])).1
    [⟨"Core".data, "d".data, [0, 1, 2]⟩] hok
    ⟨"Core".data, "d".data, [0, 1, 2]⟩ (List.mem_singleton.mpr rfl)
  exact ⟨hok, h.1, h.2.1, (h.2.2 2 (by simp)).1.trans (by norm_num), (h.2.2 2 (by simp)).2⟩

/-- A validated relationship as stored by `AnalyzeRelationships.exec`
(src/nodes.py:751-757): the dict keys `from` and `to` are modelled as
`fromIdx` and `toIdx` (`from` is reserved in Lean). -/
structure Relationship : Type where
  fromIdx : Int
  toIdx : Int
  label : Str
deriving DecidableEq

/-- Endpoint conversion of `AnalyzeRelationships.exec` (src/nodes.py:743-744):
`int(str(value).split("#")[0].strip())`.  For an int, `str` yields its
decimal representation, which contains no hash mark and parses back to the
same value; for a string the before-hash prefix is parsed; for the other
shapes (`[...]`, a mapping display, `None`) `int()` always raises. -/
def parseEndpoint : YVal → Option Int
  | .int n => some n
  | .str s => pyInt (pyStrip (beforeFirst ['#'] s))
  | _ => none

/-- An endpoint value is good for `numAbstractions` abstractions when it
resolves to an index in `[0, numAbstractions)`. -/
def goodEndpoint (numAbstractions : Nat) (v : YVal) : Prop :=
  ∃ i : Int, parseEndpoint v = some i ∧ 0 ≤ i ∧ i < (numAbstractions : Int)

/-- Per-entry validation of `AnalyzeRelationships.exec`
(src/nodes.py:729-759): the entry must be a mapping with
`from_abstraction`, `to_abstraction` and `label` keys, `label` must be a
string, both endpoints must resolve to indices in `[0, numAbstractions)`. -/
def validateRelationshipItem (numAbstractions : Nat) (rel : YVal) :
    Except String Relationship :=
  match rel with
  | .map kvs =>
    match lookupKey kvs ("from_abstraction".data),
        lookupKey kvs ("to_abstraction".data), lookupKey kvs ("label".data) with
    | some fv, some tv, some lv =>
      match lv with
      | .str label =>
        match parseEndpoint fv, parseEndpoint tv with
        | some fi, some ti =>
          if (0 ≤ fi ∧ fi < (numAbstractions : Int)) ∧
              (0 ≤ ti ∧ ti < (numAbstractions : Int)) then
            .ok ⟨fi, ti, label⟩
          else .error "Could not parse indices from relationship"
        | _, _ => .error "Could not parse indices from relationship"
      | _ => .error "Relationship label is not a string"
    | _, _, _ => .error "Missing keys in relationship item"
  | _ => .error "Missing keys in relationship item"

/-- Validation part of `AnalyzeRelationships.exec` (src/nodes.py:713-765):
the parsed response must be a mapping carrying a string `summary` and a
sequence `relationships` whose entries all validate. -/
def analyzeRelationships_exec (numAbstractions : Nat) (parsed : YVal) :
    Except String (Str × List Relationship) :=
  match parsed with
  | .map kvs =>
    match lookupKey kvs ("summary".data), lookupKey kvs ("relationships".data) with
    | some sv, some rv =>
      match sv with
      | .str summary =>
        match rv with
        | .list rels =>
          match mapExcept (validateRelationshipItem numAbstractions) rels with
          | .error msg => .error msg
          | .ok vrels => .ok (summary, vrels)
        | _ => .error "relationships is not a list"
      | _ => .error "summary is not a string"
    | _, _ => .error "LLM output is not a dict or missing keys"
  | _ => .error "LLM output is not a dict or missing keys"

/-- A relationship entry that the stage must reject: not a mapping, a
missing key, a non-string label, or an endpoint that does not resolve to
an in-range index. -/
def badRelItem (numAbstractions : Nat) (rel : YVal) : Prop :=
  (∀ kvs, rel ≠ .map kvs) ∨
  (∃ kvs, rel = .map kvs ∧
    (lookupKey kvs ("from_abstraction".data) = none ∨
     lookupKey kvs ("to_abstraction".data) = none ∨
     lookupKey kvs ("label".data) = none)) ∨
  (∃ kvs lv, rel = .map kvs ∧ lookupKey kvs ("label".data) = some lv ∧
    ∀ s, lv ≠ .str s) ∨
  (∃ kvs fv, rel = .map kvs ∧
    lookupKey kvs ("from_abstraction".data) = some fv ∧
    ¬ goodEndpoint numAbstractions fv) ∨
  (∃ kvs tv, rel = .map kvs ∧
    lookupKey kvs ("to_abstraction".data) = some tv ∧
    ¬ goodEndpoint numAbstractions tv)

theorem validateRelationshipItem_ok {A : Nat} {rel : YVal} {r : Relationship}
    (h : validateRelationshipItem A rel = .ok r) :
    ∃ kvs fv tv, rel = .map kvs ∧
      lookupKey kvs ("from_abstraction".data) = some fv ∧
      lookupKey kvs ("to_abstraction".data) = some tv ∧
      lookupKey kvs ("label".data) = some (.str r.label) ∧
      parseEndpoint fv = some r.fromIdx ∧ parseEndpoint tv = some r.toIdx ∧
      0 ≤ r.fromIdx ∧ r.fromIdx < (A : Int) ∧ 0 ≤ r.toIdx ∧ r.toIdx < (A : Int) := by
  simp only [validateRelationshipItem] at h
  split at h
  next kvs =>
    split at h
    next fv tv lv h1 h2 h3 =>
      split at h
      next label =>
        split at h
        next fi ti hfi hti =>
          split at h
          next hrange =>
            simp only [Except.ok.injEq] at h
            subst h
            exact ⟨kvs, fv, tv, rfl, h1, h2, h3, hfi, hti,
              hrange.1.1, hrange.1.2, hrange.2.1, hrange.2.2⟩
          next hrange => exact absurd h (by simp)
        next hne => exact absurd h (by simp)
      next hne => exact absurd h (by simp)
    next hne => exact absurd h (by simp)
  next hne => exact absurd h (by simp)

theorem validateRelationshipItem_error_of_bad {A : Nat} {rel : YVal}
    (hbad : badRelItem A rel) :
    ∀ r, validateRelationshipItem A rel ≠ .ok r := by
  intro r h
  obtain ⟨kvs, fv, tv, rfl, hf, ht, hl, hpf, hpt, b1, b2, b3, b4⟩ :=
    validateRelationshipItem_ok h
  rcases hbad with hnm | ⟨kvs', heq, hmiss⟩ | ⟨kvs', lv, heq, hlv, hns⟩ |
      ⟨kvs', fv', heq, hfv', hng⟩ | ⟨kvs', tv', heq, htv', hng⟩
  · exact hnm kvs rfl
  · obtain rfl : kvs = kvs' := by injection heq
    rcases hmiss with hm | hm | hm
    · rw [hf] at hm; cases hm
    · rw [ht] at hm; cases hm
    · rw [hl] at hm; cases hm
  · obtain rfl : kvs = kvs' := by injection heq
    rw [hl] at hlv
    exact hns r.label (Option.some.inj hlv).symm
  · obtain rfl : kvs = kvs' := by injection heq
    rw [hf] at hfv'
    obtain rfl : fv = fv' := Option.some.inj hfv'
    exact hng ⟨r.fromIdx, hpf, b1, b2⟩
  · obtain rfl : kvs = kvs' := by injection heq
    rw [ht] at htv'
    obtain rfl : tv = tv' := Option.some.inj htv'
    exact hng ⟨r.toIdx, hpt, b3, b4⟩

/-- C4 counterexample: a top-level mapping carrying an `extra` key besides
`summary` and `relationships` is accepted by the Relationship Stage, so
"containing exactly the keys summary and relationships" does not hold:
the key-presence check `all(k in data for k in [...])` (src/nodes.py:716-718)
tolerates extra keys. -/
theorem analyzeRelationships_exec_extra_key_accepted :
    analyzeRelationships_exec 1 (.map [("summary".data, .str ("s".data)),
        ("relationships".data, .list []), ("extra".data, .null)]) =
      .ok ("s".data, []) := by rfl

/-- C4 amended: the Relationship Stage accepts only when the top-level
result is a mapping containing at least a string `summary` and a sequence
`relationships` (extra keys are tolerated); every accepted relationship
has both endpoints in `[0, A)`; a missing top-level key is fatal, and any
entry of `relationships` that is not a mapping with the three required
keys, has a non-string label, or has an endpoint that does not resolve to
an index in `[0, A)`, makes the whole stage fail. -/
theorem analyzeRelationships_exec_validation (A : Nat) (parsed : YVal) :
    (∀ s rels, analyzeRelationships_exec A parsed = .ok (s, rels) →
        ∀ r ∈ rels, 0 ≤ r.fromIdx ∧ r.fromIdx < (A : Int) ∧
          0 ≤ r.toIdx ∧ r.toIdx < (A : Int)) ∧
    (∀ kvs, parsed = .map kvs →
        (lookupKey kvs ("summary".data) = none ∨
         lookupKey kvs ("relationships".data) = none) →
        ∃ msg, analyzeRelationships_exec A parsed = .error msg) ∧
    (∀ kvs rv rel, parsed = .map kvs →
        lookupKey kvs ("relationships".data) = some (.list rv) → rel ∈ rv →
        badRelItem A rel →
        ∃ msg, analyzeRelationships_exec A parsed = .error msg) := by
  refine ⟨?_, ?_, ?_⟩
  · intro s rels hok r hr
    cases parsed with
    | map kvs =>
      simp only [analyzeRelationships_exec] at hok
      split at hok
      next sv rv h1 h2 =>
        split at hok
        next summary =>
          split at hok
          next items =>
            split at hok
            next msg hmap => exact absurd hok (by simp)
            next vrels hmap =>
              simp only [Except.ok.injEq, Prod.mk.injEq] at hok
              obtain ⟨-, rfl⟩ := hok
              obtain ⟨-, bwd⟩ := mapExcept_ok_mem hmap
              obtain ⟨item, -, hitem⟩ := bwd r hr
              obtain ⟨-, -, -, -, -, -, -, -, -, b1, b2, b3, b4⟩ :=
                validateRelationshipItem_ok hitem
              exact ⟨b1, b2, b3, b4⟩
          next hne => exact absurd hok (by simp)
        next hne => exact absurd hok (by simp)
      next hne => exact absurd hok (by simp)
    | int m => exact absurd hok (by simp [analyzeRelationships_exec])
    | str s' => exact absurd hok (by simp [analyzeRelationships_exec])
    | list xs => exact absurd hok (by simp [analyzeRelationships_exec])
    | null => exact absurd hok (by simp [analyzeRelationships_exec])
  · rintro kvs rfl hmiss
    simp only [analyzeRelationships_exec]
    cases hs : lookupKey kvs ("summary".data) with
    | none => exact ⟨"LLM output is not a dict or missing keys", rfl⟩
    | some sv =>
      cases hrv : lookupKey kvs ("relationships".data) with
      | none => exact ⟨"LLM output is not a dict or missing keys", rfl⟩
      | some rv =>
        rcases hmiss with hm | hm
        · rw [hs] at hm; cases hm
        · rw [hrv] at hm; cases hm
  · rintro kvs rv rel rfl hrv hmem hbad
    simp only [analyzeRelationships_exec]
    cases hs : lookupKey kvs ("summary".data) with
    | none => exact ⟨"LLM output is not a dict or missing keys", rfl⟩
    | some sv =>
      rw [hrv]
      cases sv with
      | str summary =>
        dsimp only
        cases hres : mapExcept (validateRelationshipItem A) rv with
        | error msg => exact ⟨msg, rfl⟩
        | ok vrels =>
          obtain ⟨fwd, -⟩ := mapExcept_ok_mem hres
          obtain ⟨b, -, hb⟩ := fwd rel hmem
          exact absurd hb (validateRelationshipItem_error_of_bad hbad b)
      | int m => exact ⟨"summary is not a string", rfl⟩
      | list xs => exact ⟨"summary is not a string", rfl⟩
      | map kvs2 => exact ⟨"summary is not a string", rfl⟩
      | null => exact ⟨"summary is not a string", rfl⟩

/-- C4 witness: a concrete two-abstraction run with one relationship whose
endpoints use the int form and the int-hash-comment string form is
accepted, and the claim theorem yields the endpoint bounds. -/
theorem analyzeRelationships_exec_validation_witness :
    analyzeRelationships_exec 2 (.map [("summary".data, .str ("s".data)),
        ("relationships".data, .list [.map [("from_abstraction".data, .int 0),
          ("to_abstraction".data, .str ("1 # Helper".data)),
          ("label".data, .str ("uses".data))]])]) =
      .ok ("s".data, [⟨0, 1, "uses".data⟩]) ∧
    (0 : Int) ≤ 0 ∧ (0 : Int) < 2 ∧ (0 : Int) ≤ 1 ∧ (1 : Int) < 2 := by
  have hok : analyzeRelationships_exec 2 (.map [("summary".data, .str ("s".data)),
        ("relationships".data, .list [.map [("from_abstraction".data, .int 0),
          ("to_abstraction".data, .str ("1 # Helper".data)),
          ("label".data, .str ("uses".data))]])]) =
      .ok ("s".data, [⟨0, 1, "uses".data⟩]) := by rfl
  have h := (analyzeRelationships_exec_validation 2
    (.map [("summary".data, .str ("s".data)),
        ("relationships".data, .list [.map [("from_abstraction".data, .int 0),
          ("to_abstraction".data, .str ("1 # Helper".data)),
          ("label".data, .str ("uses".data))]])])).1
    ("s".data) [⟨0, 1, "uses".data⟩] hok ⟨0, 1, "uses".data⟩
    (List.mem_singleton.mpr rfl)
  exact ⟨hok, h.1, h.2.1, by norm_num, h.2.2.2⟩

/-- Language-tag stripping inside strategy 2 of
`parse_yaml_from_llm_response` (src/nodes.py:170-172): when the fenced
block begins with a `yaml` or `yml` tag line, drop that first line. -/
def stripLangTag (y : Str) : Str :=
  if ("yaml\n".data).isPrefixOf y || ("yml\n".data).isPrefixOf y then
    afterFirst ['\n'] y
  else y

/-- Candidate selection of `parse_yaml_from_llm_response`
(src/nodes.py:154-178).  Strategy 1 fires whenever the raw response
contains a ```yaml fence (the guarded IndexError is unreachable then, so
strategy 1 always assigns); otherwise strategy 2 fires when the stripped
response splits on ``` into at least three parts (that is, the fence
occurs at least twice); otherwise the whole stripped response is used. -/
def parse_yaml_select (response : Str) : Str :=
  let r := pyStrip response
  if containsSub ("```yaml".data) response then
    pyStrip (beforeFirst ("```".data) (afterFirst ("```yaml".data) r))
  else if containsSub ("```".data) response then
    if containsSub ("```".data) (afterFirst ("```".data) r) then
      stripLangTag (pyStrip (beforeFirst ("```".data) (afterFirst ("```".data) r)))
    else r
  else r

/-- `parse_yaml_from_llm_response` (src/nodes.py:142-184), parametrised by
the external YAML parser `parse` (`yaml.safe_load`): select one candidate
substring, parse it once, and on a parser error raise a ValueError whose
message carries the parser message and the first 500 characters of the
raw response. -/
def parse_yaml_from_llm_response (parse : Str → Except Str YVal)
    (response : Str) : Except Str YVal :=
  match parse (parse_yaml_select response) with
  | .ok v => .ok v
  | .error e =>
    .error (("Failed to parse YAML from LLM response. YAML Error: ".data) ++ e ++
      ("\n\nResponse content:\n".data) ++ response.take 500 ++ ("...".data))

/-- Whether an `Except` result is a success. -/
def exceptIsOk {ε α : Type} : Except ε α → Bool
  | .ok _ => true
  | .error _ => false

/-- C3 counterexample: on the response `"key: value ```yaml [ ```"` with a
parser that rejects the strategy-1 candidate `"["` but accepts the whole
trimmed response (as `yaml.safe_load` does for these two inputs), the
extractor fails — it parses only the strategy-1 candidate and never falls
back — so "the first success wins / fails only if all three strategies
raise a parse error" is false. -/
theorem parse_yaml_from_llm_response_no_fallback :
    exceptIsOk (parse_yaml_from_llm_response
      (fun s => if s = ("[".data) then Except.error ("parse error".data)
        else Except.ok (YVal.str s))
      ("key: value ```yaml [ ```".data)) = false ∧
    exceptIsOk ((fun s => if s = ("[".data) then Except.error ("parse error".data)
        else Except.ok (YVal.str s) : Str → Except Str YVal)
      (pyStrip ("key: value ```yaml [ ```".data))) = true := by
  exact ⟨by decide, by decide⟩

/-- C3 amended: the extractor picks a single candidate substring — the
```yaml-fenced block if that tag occurs, else the first generic fenced
block (language tag line stripped) if the fence occurs at least twice,
else the whole trimmed response — parses only that candidate, and
succeeds exactly with the parser output on it (never a partial or guessed
structure); when that single parse fails, the error carries the parser
message and the first 500 characters of the raw response.  There is no
fallback to a later strategy after a parse failure. -/
theorem parse_yaml_from_llm_response_spec (parse : Str → Except Str YVal)
    (response : Str) :
    (∀ v, parse_yaml_from_llm_response parse response = .ok v ↔
        parse (parse_yaml_select response) = .ok v) ∧
    (∀ e, parse (parse_yaml_select response) = .error e →
        parse_yaml_from_llm_response parse response =
          .error (("Failed to parse YAML from LLM response. YAML Error: ".data) ++
            e ++ ("\n\nResponse content:\n".data) ++ response.take 500 ++
            ("...".data))) ∧
    (containsSub ("```yaml".data) response = true →
        parse_yaml_select response =
          pyStrip (beforeFirst ("```".data)
            (afterFirst ("```yaml".data) (pyStrip response)))) ∧
    (containsSub ("```yaml".data) response = false →
      containsSub ("```".data) response = true →
      containsSub ("```".data) (afterFirst ("```".data) (pyStrip response)) = true →
        parse_yaml_select response =
          stripLangTag (pyStrip (beforeFirst ("```".data)
            (afterFirst ("```".data) (pyStrip response))))) ∧
    (containsSub ("```yaml".data) response = false →
      (containsSub ("```".data) response = false ∨
       containsSub ("```".data) (afterFirst ("```".data) (pyStrip response)) = false) →
        parse_yaml_select response = pyStrip response) := by
  refine ⟨?_, ?_, ?_, ?_, ?_⟩
  · intro v
    constructor
    · intro h
      simp only [parse_yaml_from_llm_response] at h
      split at h
      next v' hp =>
        simp only [Except.ok.injEq] at h
        subst h
        exact hp
      next e hp => exact absurd h (by simp)
    · intro hp
      simp only [parse_yaml_from_llm_response, hp]
  · intro e hp
    simp only [parse_yaml_from_llm_response, hp]
  · intro h1
    simp only [parse_yaml_select, h1, if_true]
  · intro h1 h2 h3
    simp only [parse_yaml_select, h1, h2, h3, Bool.false_eq_true, if_false, if_true]
  · intro h1 h2
    rcases h2 with h2 | h2
    · simp only [parse_yaml_select, h1, h2, Bool.false_eq_true, if_false]
    · cases h3 : containsSub ("```".data) response with
      | false => simp only [parse_yaml_select, h1, h3, Bool.false_eq_true, if_false]
      | true =>
        simp only [parse_yaml_select, h1, h3, h2, Bool.false_eq_true, if_false, if_true]

/-- C3 witness: a concrete fenceless response whose parse fails with
message `boom` produces exactly the documented error text, built from the
parser message and the raw response. -/
theorem parse_yaml_from_llm_response_spec_witness :
    parse_yaml_from_llm_response (fun _ => .error ("boom".data))
        ("no fences here".data) =
      .error (("Failed to parse YAML from LLM response. YAML Error: ".data) ++
        ("boom".data) ++ ("\n\nResponse content:\n".data) ++
        ("no fences here".data).take 500 ++ ("...".data)) := by
  have h := (parse_yaml_from_llm_response_spec (fun _ => .error ("boom".data))
    ("no fences here".data)).2.1 ("boom".data) rfl
  exact h

/-- Heading repair of `WriteChapters.exec` (src/nodes.py:1153-1164): when
the stripped body does not start with the string `"# " + abstraction_name`,
rewrite the first line of the stripped body to that heading if that line
(stripped) starts with `#`, otherwise prepend the heading to the original
body.  The Python guard `if lines and ...` is always reached with a
non-empty `lines` since `str.split` never returns an empty list; the
empty-list arm below mirrors the falsy branch. -/
def fixChapterHeading (abstractionName chapterContent : Str) : Str :=
  let actualHeading := ("# ".data) ++ abstractionName
  if actualHeading.isPrefixOf (pyStrip chapterContent) then chapterContent
  else
    match splitOnChar '\n' (pyStrip chapterContent) with
    | [] => actualHeading ++ ("\n\n".data) ++ chapterContent
    | first :: rest =>
      if (['#']).isPrefixOf (pyStrip first) then
        joinWithChar '\n' (actualHeading :: rest)
      else actualHeading ++ ("\n\n".data) ++ chapterContent

theorem isPrefixOf_append {l t : Str} : l.isPrefixOf (l ++ t) = true :=
  List.isPrefixOf_iff_prefix.mpr (List.prefix_append l t)

theorem isPrefixOf_joinWithChar (c : Char) (g : Str) (gs : List Str) :
    g.isPrefixOf (joinWithChar c (g :: gs)) = true := by
  cases gs with
  | nil =>
    simp only [joinWithChar]
    exact List.isPrefixOf_iff_prefix.mpr (List.prefix_rfl)
  | cons g' gs' =>
    simp only [joinWithChar]
    exact isPrefixOf_append

/-- C5 counterexample: for abstraction name `A`, the produced body
`"\n# A\nbody"` (leading blank line, then the correct heading) is returned
unchanged, and the returned body does not begin with the heading
`"# A"` — the check operates on the stripped body, so the claim that every
returned body begins with the heading is false. -/
theorem fixChapterHeading_leading_blank_unrepaired :
    fixChapterHeading ("A".data) ("\n# A\nbody".data) = ("\n# A\nbody".data) ∧
    ("# A".data).isPrefixOf ("\n# A\nbody".data) = false := by
  exact ⟨by decide, by decide⟩

/-- C5 amended: the heading check and repair of the Narrative Assembly
Stage operate on the whitespace-stripped body with a string-prefix test:
a body whose stripped form already starts with `"# " + name` is returned
unchanged (it may begin with whitespace, or carry a longer heading);
otherwise the stage rewrites — replacing the first line of the stripped
body when that line starts with `#`, else prepending the heading — and
every rewritten body begins with `"# " + name`. -/
theorem fixChapterHeading_spec (name content : Str) :
    (("# ".data ++ name).isPrefixOf (pyStrip content) = true →
        fixChapterHeading name content = content) ∧
    (("# ".data ++ name).isPrefixOf (pyStrip content) = false →
        ("# ".data ++ name).isPrefixOf (fixChapterHeading name content) = true ∧
        ∀ first rest, splitOnChar '\n' (pyStrip content) = first :: rest →
          ((['#']).isPrefixOf (pyStrip first) = true →
            fixChapterHeading name content =
              joinWithChar '\n' (("# ".data ++ name) :: rest)) ∧
          ((['#']).isPrefixOf (pyStrip first) = false →
            fixChapterHeading name content =
              ("# ".data ++ name) ++ ("\n\n".data) ++ content)) := by
  constructor
  · intro h
    simp only [fixChapterHeading, h, if_true]
  · intro h
    constructor
    · simp only [fixChapterHeading, h, Bool.false_eq_true, if_false]
      cases hs : splitOnChar '\n' (pyStrip content) with
      | nil =>
        dsimp only
        rw [List.append_assoc]
        exact isPrefixOf_append
      | cons first rest =>
        dsimp only
        by_cases hp : (['#']).isPrefixOf (pyStrip first) = true
        · rw [if_pos hp]
          exact isPrefixOf_joinWithChar '\n' _ rest
        · rw [if_neg hp]
          rw [List.append_assoc]
          exact isPrefixOf_append
    · intro first rest hs
      constructor
      · intro hp
        simp only [fixChapterHeading, h, Bool.false_eq_true, if_false, hs]
        rw [if_pos hp]
      · intro hp
        simp only [fixChapterHeading, h, Bool.false_eq_true, if_false, hs]
        rw [if_neg (by simp [hp])]

/-- C5 witness: a body with no heading at all is repaired by prepending,
and the repaired body begins with the heading `"# A"`. -/
theorem fixChapterHeading_spec_witness :
    fixChapterHeading ("A".data) ("hello".data) =
      ("# A\n\nhello".data) ∧
    ("# A".data).isPrefixOf (fixChapterHeading ("A".data) ("hello".data)) = true := by
  have h := (fixChapterHeading_spec ("A".data) ("hello".data)).2 (by decide)
  exact ⟨by decide, h.1⟩


/-- Edge-label sanitization of `CombineTutorial.prep` (src/nodes.py:1398-1400):
`rel["label"].replace('"', "").replace("\\n", " ")` — every double quote is
removed and every newline becomes a space (char-level translation of the
two single-character `str.replace` calls). -/
def edgeLabelSanitized (label : Str) : Str :=
  (label.filter (fun c => c ≠ '"')).map (fun c => if c = '\n' then ' ' else c)

/-- Edge-label truncation of `CombineTutorial.prep` (src/nodes.py:1401-1403):
labels longer than 30 characters are cut to the first 27 characters plus
an ellipsis. -/
def sanitizeEdgeLabel (label : Str) : Str :=
  if 30 < (edgeLabelSanitized label).length then
    (edgeLabelSanitized label).take 27 ++ ("...".data)
  else edgeLabelSanitized label

/-- C6: every rendered edge label has double quotes stripped and newlines
replaced by spaces, labels of sanitized length at most 30 are rendered
unchanged, longer ones are rendered as their first 27 characters plus
`...`, and the rendered label never exceeds 30 characters (exactly 30
when truncated). -/
theorem sanitizeEdgeLabel_spec (label : Str) :
    '"' ∉ sanitizeEdgeLabel label ∧ '\n' ∉ sanitizeEdgeLabel label ∧
    (sanitizeEdgeLabel label).length ≤ 30 ∧
    ((edgeLabelSanitized label).length ≤ 30 →
        sanitizeEdgeLabel label = edgeLabelSanitized label) ∧
    (30 < (edgeLabelSanitized label).length →
        sanitizeEdgeLabel label = (edgeLabelSanitized label).take 27 ++ ("...".data) ∧
        (sanitizeEdgeLabel label).length = 30) := by
  have hq : '"' ∉ edgeLabelSanitized label := by
    intro hc
    simp only [edgeLabelSanitized, List.mem_map] at hc
    obtain ⟨c, hcf, hce⟩ := hc
    rw [List.mem_filter] at hcf
    by_cases hcn : c = '\n'
    · rw [if_pos hcn] at hce
      cases hce
    · rw [if_neg hcn] at hce
      subst hce
      simp at hcf
  have hn : '\n' ∉ edgeLabelSanitized label := by
    intro hc
    simp only [edgeLabelSanitized, List.mem_map] at hc
    obtain ⟨c, hcf, hce⟩ := hc
    by_cases hcn : c = '\n'
    · rw [if_pos hcn] at hce
      cases hce
    · rw [if_neg hcn] at hce
      exact hcn hce
  refine ⟨?_, ?_, ?_, ?_, ?_⟩
  · intro hc
    simp only [sanitizeEdgeLabel] at hc
    split at hc
    · rcases List.mem_append.mp hc with hc1 | hc1
      · exact hq (List.mem_of_mem_take hc1)
      · simp at hc1
    · exact hq hc
  · intro hc
    simp only [sanitizeEdgeLabel] at hc
    split at hc
    · rcases List.mem_append.mp hc with hc1 | hc1
      · exact hn (List.mem_of_mem_take hc1)
      · simp at hc1
    · exact hn hc
  · simp only [sanitizeEdgeLabel]
    split
    next hlen =>
      rw [List.length_append, List.length_take]
      simp only [List.length_cons, List.length_nil]
      omega
    next hlen => omega
  · intro hle
    simp only [sanitizeEdgeLabel]
    rw [if_neg (by omega)]
  · intro hgt
    have heq : sanitizeEdgeLabel label =
        (edgeLabelSanitized label).take 27 ++ ("...".data) := by
      simp only [sanitizeEdgeLabel]
      rw [if_pos hgt]
    refine ⟨heq, ?_⟩
    rw [heq, List.length_append, List.length_take]
    simp only [List.length_cons, List.length_nil]
    omega

/-- C6 witness: a 40-character edge label (no quotes or newlines) is
rendered as its first 27 characters followed by `...`. -/
theorem sanitizeEdgeLabel_spec_witness :
    sanitizeEdgeLabel ("aaaaaaaaaaaaaaaaaaaaaaaaaaaaaaaaaaaaaaaa".data) =
      ("aaaaaaaaaaaaaaaaaaaaaaaaaaa...".data) := by
  have h := ((sanitizeEdgeLabel_spec ("aaaaaaaaaaaaaaaaaaaaaaaaaaaaaaaaaaaaaaaa".data)).2.2.2.2 (by decide)).1
  rw [h]
  decide

/-- Python `prompt in cache` (src/utils/call_llm.py:38) over the loaded
JSON value: key membership for an object, element equality for an array,
substring test for a string; for any other value Python raises
`TypeError: argument of type ... is not iterable`. -/
def pyInCache (prompt : Str) (cache : YVal) : Except String Bool :=
  match cache with
  | .map kvs => .ok (lookupKey kvs prompt).isSome
  | .list xs => .ok (xs.any (fun v => match v with | .str t => t = prompt | _ => false))
  | .str s => .ok (containsSub prompt s)
  | _ => .error "TypeError: argument of type int is not iterable"

/-- Python `cache[prompt]` (src/utils/call_llm.py:40): key lookup on an
object; on an array or string a string index raises `TypeError`. -/
def pyGetCache (prompt : Str) (cache : YVal) : Except String YVal :=
  match cache with
  | .map kvs =>
    match lookupKey kvs prompt with
    | some v => .ok v
    | none => .error "KeyError"
  | _ => .error "TypeError: indices must be integers"

/-- Replace the first binding of `k` in an association list, or append a
new one: Python dict item assignment. -/
def setKey (kvs : List (Str × YVal)) (k : Str) (v : YVal) : List (Str × YVal) :=
  match kvs with
  | [] => [(k, v)]
  | (k', v') :: rest => if k' = k then (k, v) :: rest else (k', v') :: setKey rest k v

/-- Python `cache[prompt] = response_text` (src/utils/call_llm.py:62):
item assignment on an object; on an array or string it raises
`TypeError`. -/
def pySetCache (prompt : Str) (v : YVal) (cache : YVal) : Except String YVal :=
  match cache with
  | .map kvs => .ok (.map (setKey kvs prompt v))
  | _ => .error "TypeError: item assignment"

/-- The response text after the API call of `call_llm`
(src/utils/call_llm.py:42-58): the returned message content on success
(possibly null), or the sentinel string on any exception. -/
def apiResponseText (api : Except Str (Option Str)) : Option Str :=
  match api with
  | .ok c => c
  | .error e => some (("[OpenAI call failed: ".data) ++ e ++ ("]".data))

/-- Cache-write step and return of `call_llm` (src/utils/call_llm.py:60-70):
cache only a truthy response that does not start with `[` (and only when
caching is on); the dump itself is wrapped in try/except, so the written
content is modelled as the new cache value.  The first component of the
result is the returned value, the second the written cache content, if
any. -/
def call_llm_finish (use_cache : Bool) (prompt : Str) (cache : YVal)
    (api : Except Str (Option Str)) : Except String (YVal × Option YVal) :=
  match apiResponseText api with
  | some s =>
    if use_cache && !s.isEmpty && !((['[']).isPrefixOf s) then
      match pySetCache prompt (.str s) cache with
      | .error e => .error e
      | .ok newCache => .ok (.str s, some newCache)
    else .ok (.str s, none)
  | none => .ok (.null, none)

/-- `call_llm` (src/utils/call_llm.py:20-70).  `cacheFile` models the
cache file: `none` when absent, `some (Except.error ())` when present but
unreadable (the load failure is swallowed and the cache stays empty),
`some (Except.ok v)` when it parses to the JSON value `v`.  `api` models
the OpenAI call: exception message or returned content.  The membership
test and the cache hit run only when `use_cache` is true and the file
exists; an `Except.error` result models an exception escaping to the
caller. -/
def call_llm (cacheFile : Option (Except Unit YVal)) (api : Except Str (Option Str))
    (use_cache : Bool) (prompt : Str) : Except String (YVal × Option YVal) :=
  if use_cache then
    match cacheFile with
    | none => call_llm_finish use_cache prompt (.map []) api
    | some load =>
      match (match load with | .ok v => v | .error _ => .map []) with
      | cache =>
        match pyInCache prompt cache with
        | .error e => .error e
        | .ok true =>
          match pyGetCache prompt cache with
          | .error e => .error e
          | .ok v => .ok (v, none)
        | .ok false => call_llm_finish use_cache prompt cache api
  else call_llm_finish use_cache prompt (.map []) api

/-- Per-attempt cache flag used at every oracle call site
(src/nodes.py:470, 711, 876, 1152): `use_cache and self.cur_retry == 0`.
The retry wrapper of the external flow framework numbers attempts of one
stage invocation 0, 1, 2, ..., so `curRetry = 0` is exactly the first
attempt. -/
def attemptUseCache (runUseCache : Bool) (curRetry : Nat) : Bool :=
  runUseCache && (curRetry == 0)

/-- C7: the first attempt of a retry sequence passes the run-level cache
flag to the oracle call and every later attempt passes false; with the
flag false, `call_llm` ignores the cache file entirely (same result for
any cache file) and writes nothing to it, so the oracle call is fresh. -/
theorem retry_use_cache_policy :
    (∀ uc : Bool, attemptUseCache uc 0 = uc) ∧
    (∀ (uc : Bool) (k : Nat), 0 < k → attemptUseCache uc k = false) ∧
    (∀ cf api prompt, ∃ v, call_llm cf api false prompt = .ok (v, none) ∧
        ∀ cf', call_llm cf' api false prompt = .ok (v, none)) := by
  refine ⟨?_, ?_, ?_⟩
  · intro uc
    cases uc <;> rfl
  · intro uc k hk
    cases uc
    · rfl
    · have hne : k ≠ 0 := Nat.pos_iff_ne_zero.mp hk
      simp [attemptUseCache, hne]
  · intro cf api prompt
    have hfin : ∀ c, call_llm c api false prompt =
        call_llm_finish false prompt (.map []) api := by
      intro c
      simp [call_llm]
    cases hresp : apiResponseText api with
    | some s =>
      refine ⟨.str s, ?_, ?_⟩
      · rw [hfin, call_llm_finish, hresp]
        simp
      · intro cf'
        rw [hfin, call_llm_finish, hresp]
        simp
    | none =>
      refine ⟨.null, ?_, ?_⟩
      · rw [hfin, call_llm_finish, hresp]
      · intro cf'
        rw [hfin, call_llm_finish, hresp]

/-- C7 witness: with caching enabled for the run, the first attempt passes
true and the second attempt passes false. -/
theorem retry_use_cache_policy_witness :
    attemptUseCache true 0 = true ∧ attemptUseCache true 1 = false := by
  exact ⟨retry_use_cache_policy.1 true, retry_use_cache_policy.2.1 true 1 (by decide)⟩

/-- A well-formed cache value: a JSON object whose values are all
non-empty strings not starting with `[` — exactly what `call_llm` itself
ever writes. -/
def goodCacheVal (v : YVal) : Prop :=
  ∃ kvs, v = .map kvs ∧ ∀ p q, (p, q) ∈ kvs →
    ∃ s, q = .str s ∧ s ≠ [] ∧ (['[']).isPrefixOf s = false

theorem lookupKey_mem {kvs : List (Str × YVal)} {k : Str} {v : YVal}
    (h : lookupKey kvs k = some v) : (k, v) ∈ kvs := by
  induction kvs with
  | nil => cases h
  | cons kv rest ih =>
    obtain ⟨k', v'⟩ := kv
    simp only [lookupKey] at h
    split at h
    next heq =>
      simp only [Option.some.injEq] at h
      subst heq
      subst h
      simp
    next heq => exact List.mem_cons_of_mem _ (ih h)

theorem setKey_mem {kvs : List (Str × YVal)} {k p : Str} {v q : YVal}
    (h : (p, q) ∈ setKey kvs k v) : (p, q) ∈ kvs ∨ (p = k ∧ q = v) := by
  induction kvs with
  | nil =>
    simp only [setKey, List.mem_singleton, Prod.mk.injEq] at h
    exact Or.inr h
  | cons kv rest ih =>
    obtain ⟨k', v'⟩ := kv
    simp only [setKey] at h
    split at h
    next heq =>
      rcases List.mem_cons.mp h with h1 | h1
      · simp only [Prod.mk.injEq] at h1
        exact Or.inr h1
      · exact Or.inl (List.mem_cons_of_mem _ h1)
    next heq =>
      rcases List.mem_cons.mp h with h1 | h1
      · exact Or.inl (by simp [h1])
      · rcases ih h1 with h2 | h2
        · exact Or.inl (List.mem_cons_of_mem _ h2)
        · exact Or.inr h2

theorem call_llm_finish_no_raise (uc : Bool) (prompt : Str)
    (kvs : List (Str × YVal)) (api : Except Str (Option Str)) :
    ∃ r w, call_llm_finish uc prompt (.map kvs) api = .ok (r, w) := by
  simp only [call_llm_finish]
  cases apiResponseText api with
  | none => exact ⟨.null, none, rfl⟩
  | some s =>
    dsimp only
    by_cases hc : (uc && !s.isEmpty && !((['[']).isPrefixOf s)) = true
    · rw [if_pos hc]
      exact ⟨.str s, some (.map (setKey kvs prompt (.str s))), rfl⟩
    · rw [if_neg hc]
      exact ⟨.str s, none, rfl⟩

theorem call_llm_finish_write {uc : Bool} {prompt : Str} {cache : YVal}
    {api : Except Str (Option Str)} {r : YVal} {w : YVal}
    (h : call_llm_finish uc prompt cache api = .ok (r, some w)) :
    ∃ s kvs0, cache = .map kvs0 ∧ r = .str s ∧ uc = true ∧ s ≠ [] ∧
      (['[']).isPrefixOf s = false ∧ apiResponseText api = some s ∧
      w = .map (setKey kvs0 prompt (.str s)) := by
  simp only [call_llm_finish] at h
  split at h
  next s hresp =>
    split at h
    next hcond =>
      cases cache with
      | map kvs0 =>
        simp only [pySetCache, Except.ok.injEq, Prod.mk.injEq] at h
        obtain ⟨rfl, hw⟩ := h
        simp only [Option.some.injEq] at hw
        simp only [Bool.and_eq_true, Bool.not_eq_true', Bool.not_eq_false] at hcond
        refine ⟨s, kvs0, rfl, rfl, hcond.1.1, ?_, hcond.2, hresp, hw.symm⟩
        intro hempty
        rw [hempty] at hcond
        simp at hcond
      | int m => simp [pySetCache] at h
      | str t => simp [pySetCache] at h
      | list xs => simp [pySetCache] at h
      | null => simp [pySetCache] at h
    next hcond => exact absurd h (by simp)
  next hresp => exact absurd h (by simp)

/-- C10 counterexample: with caching enabled and a cache file whose JSON
content is the scalar `0`, the membership test `prompt in cache` raises a
`TypeError` that escapes `call_llm` to its caller, so "never raises an
exception to its caller" is false. -/
theorem call_llm_raises_on_scalar_cache :
    call_llm (some (.ok (.int 0))) (.ok (some ("hi".data))) true ("p".data) =
      .error "TypeError: argument of type int is not iterable" := by rfl


theorem call_llm_false_eq (cf : Option (Except Unit YVal))
    (api : Except Str (Option Str)) (prompt : Str) :
    call_llm cf api false prompt = call_llm_finish false prompt (.map []) api := by
  simp [call_llm]

theorem call_llm_true_none (api : Except Str (Option Str)) (prompt : Str) :
    call_llm none api true prompt = call_llm_finish true prompt (.map []) api := by
  simp [call_llm]

theorem call_llm_true_unreadable (api : Except Str (Option Str)) (prompt : Str) :
    call_llm (some (.error ())) api true prompt =
      call_llm_finish true prompt (.map []) api := by
  simp [call_llm, pyInCache, lookupKey]

theorem call_llm_true_hit {kvs : List (Str × YVal)} {prompt : Str} {q : YVal}
    (hlk : lookupKey kvs prompt = some q) (api : Except Str (Option Str)) :
    call_llm (some (.ok (.map kvs))) api true prompt = .ok (q, none) := by
  simp [call_llm, pyInCache, pyGetCache, hlk]

theorem call_llm_true_miss {kvs : List (Str × YVal)} {prompt : Str}
    (hlk : lookupKey kvs prompt = none) (api : Except Str (Option Str)) :
    call_llm (some (.ok (.map kvs))) api true prompt =
      call_llm_finish true prompt (.map kvs) api := by
  simp [call_llm, pyInCache, hlk]

theorem goodCacheVal_setKey {kvs0 : List (Str × YVal)} {prompt s : Str}
    (hgood : ∀ p q, (p, q) ∈ kvs0 →
      ∃ t, q = .str t ∧ t ≠ [] ∧ (['[']).isPrefixOf t = false)
    (hs1 : s ≠ []) (hs2 : (['[']).isPrefixOf s = false) :
    goodCacheVal (.map (setKey kvs0 prompt (.str s))) := by
  refine ⟨setKey kvs0 prompt (.str s), rfl, fun p q hpq => ?_⟩
  rcases setKey_mem hpq with h1 | ⟨-, rfl⟩
  · exact hgood p q h1
  · exact ⟨s, rfl, hs1, hs2⟩

theorem call_llm_ok_write {cf : Option (Except Unit YVal)}
    {api : Except Str (Option Str)} {uc : Bool} {prompt : Str} {r w : YVal}
    (h : call_llm cf api uc prompt = .ok (r, some w)) :
    ∃ cache, call_llm_finish uc prompt cache api = .ok (r, some w) ∧
      (cache = .map [] ∨ cf = some (.ok cache)) := by
  cases uc with
  | false =>
    rw [call_llm_false_eq] at h
    exact ⟨.map [], h, Or.inl rfl⟩
  | true =>
    cases cf with
    | none =>
      rw [call_llm_true_none] at h
      exact ⟨.map [], h, Or.inl rfl⟩
    | some load =>
      cases load with
      | error u =>
        cases u
        rw [call_llm_true_unreadable] at h
        exact ⟨.map [], h, Or.inl rfl⟩
      | ok v =>
        simp only [call_llm, if_pos rfl] at h
        cases hin : pyInCache prompt v with
        | error e =>
          rw [hin] at h
          exact absurd h (by simp)
        | ok b =>
          rw [hin] at h
          cases b with
          | true =>
            dsimp only at h
            cases hq : pyGetCache prompt v with
            | error e =>
              rw [hq] at h
              exact absurd h (by simp)
            | ok q =>
              rw [hq] at h
              simp at h
          | false =>
            dsimp only at h
            exact ⟨v, h, Or.inr rfl⟩

/-- C10 amended: provided any cache file it consults is absent, unreadable
or holds a JSON object, `call_llm` returns instead of raising (a
non-object cache file makes it raise a `TypeError`); when the underlying
API call fails it returns the sentinel `[OpenAI call failed: <e>]` and
writes nothing; whatever it writes to the cache is an object updating the
prompt key with the returned response, which is non-empty and does not
start with `[` — so a failure sentinel is never stored — writes preserve
cache well-formedness, and from a well-formed cache a hit returns a
stored non-empty non-sentinel string without writing. -/
theorem call_llm_cache_discipline (cf : Option (Except Unit YVal))
    (api : Except Str (Option Str)) (uc : Bool) (prompt : Str) :
    ((∀ v, cf = some (.ok v) → ∃ kvs, v = .map kvs) →
        ∃ r w, call_llm cf api uc prompt = .ok (r, w)) ∧
    (∀ e, api = .error e → cf = none →
        call_llm cf api uc prompt =
          .ok (.str (("[OpenAI call failed: ".data) ++ e ++ ("]".data)), none)) ∧
    (∀ r w, call_llm cf api uc prompt = .ok (r, some w) →
        uc = true ∧ ∃ s kvs0, r = .str s ∧ s ≠ [] ∧
          (['[']).isPrefixOf s = false ∧ w = .map (setKey kvs0 prompt (.str s))) ∧
    (∀ r w, (∀ v, cf = some (.ok v) → goodCacheVal v) →
        call_llm cf api uc prompt = .ok (r, some w) → goodCacheVal w) ∧
    (∀ v, cf = some (.ok v) → goodCacheVal v → pyInCache prompt v = .ok true →
        ∃ s, call_llm (some (.ok v)) api true prompt = .ok (.str s, none) ∧
          s ≠ [] ∧ (['[']).isPrefixOf s = false) := by
  have hsent : ∀ e : Str,
      (['[']).isPrefixOf (("[OpenAI call failed: ".data) ++ e ++ ("]".data)) = true :=
    fun e => rfl
  refine ⟨?_, ?_, ?_, ?_, ?_⟩
  · intro hshape
    cases uc with
    | false =>
      rw [call_llm_false_eq]
      exact call_llm_finish_no_raise false prompt [] api
    | true =>
      cases cf with
      | none =>
        rw [call_llm_true_none]
        exact call_llm_finish_no_raise true prompt [] api
      | some load =>
        cases load with
        | error u =>
          cases u
          rw [call_llm_true_unreadable]
          exact call_llm_finish_no_raise true prompt [] api
        | ok v =>
          obtain ⟨kvs, rfl⟩ := hshape v rfl
          cases hlk : lookupKey kvs prompt with
          | some q => exact ⟨q, none, call_llm_true_hit hlk api⟩
          | none =>
            rw [call_llm_true_miss hlk]
            exact call_llm_finish_no_raise true prompt kvs api
  · rintro e rfl rfl
    have hfin : call_llm_finish uc prompt (.map []) ((Except.error e : Except Str (Option Str))) =
        .ok (.str (("[OpenAI call failed: ".data) ++ e ++ ("]".data)), none) := by
      simp only [call_llm_finish, apiResponseText]
      rw [if_neg]
      simp only [hsent e, Bool.not_true, Bool.and_false]
      simp
    cases uc with
    | false => rw [call_llm_false_eq]; exact hfin
    | true => rw [call_llm_true_none]; exact hfin
  · intro r w h
    obtain ⟨cache, hfin, -⟩ := call_llm_ok_write h
    obtain ⟨s, kvs0, hcache, hr, huc, hs1, hs2, -, hw⟩ := call_llm_finish_write hfin
    exact ⟨huc, s, kvs0, hr, hs1, hs2, hw⟩
  · intro r w hgood h
    obtain ⟨cache, hfin, hsrc⟩ := call_llm_ok_write h
    obtain ⟨s, kvs0, hcache, -, -, hs1, hs2, -, hw⟩ := call_llm_finish_write hfin
    subst hw
    rcases hsrc with rfl | hcf
    · obtain rfl : ([] : List (Str × YVal)) = kvs0 := by injection hcache
      exact goodCacheVal_setKey (by simp) hs1 hs2
    · obtain ⟨kvs, hcv, hkvs⟩ := hgood cache hcf
      rw [hcv] at hcache
      obtain rfl : kvs = kvs0 := by injection hcache
      exact goodCacheVal_setKey hkvs hs1 hs2
  · intro v hcf hgoodv hin
    obtain ⟨kvs, rfl, hkvs⟩ := hgoodv
    simp only [pyInCache, Except.ok.injEq] at hin
    obtain ⟨q, hlk⟩ := Option.isSome_iff_exists.mp hin
    obtain ⟨s, rfl, hs1, hs2⟩ := hkvs prompt q (lookupKey_mem hlk)
    exact ⟨s, call_llm_true_hit hlk api, hs1, hs2⟩

/-- C10 witness: with no cache file and a failing API call, `call_llm`
returns the sentinel string and writes nothing to the cache. -/
theorem call_llm_cache_discipline_witness :
    call_llm none (.error ("timeout".data)) true ("p".data) =
      .ok (.str ("[OpenAI call failed: timeout]".data), none) := by
  have h := (call_llm_cache_discipline none (.error ("timeout".data)) true
    ("p".data)).2.1 ("timeout".data) rfl rfl
  rw [h]
  rfl

/-- Decimal digit string of a natural number (fuel-based, structural). -/
def natReprAux : Nat → Nat → Str
  | 0, _ => []
  | fuel + 1, n =>
    if n < 10 then [Char.ofNat (48 + n)]
    else natReprAux fuel (n / 10) ++ [Char.ofNat (48 + n % 10)]

/-- Decimal digit string of a natural number. -/
def natRepr (n : Nat) : Str := natReprAux (n + 1) n

/-- Python `f"{n:02d}"` for a non-negative chapter number
(src/nodes.py:1426): zero-pad to at least two digits. -/
def pad2 (n : Nat) : Str := if n < 10 then '0' :: natRepr n else natRepr n

/-- Filename sanitization of `CombineTutorial.prep` (src/nodes.py:1423-1425):
`"".join(c if c.isalnum() else "_" for c in name).lower()`, read over
ASCII (`Char.isAlphanum` / `Char.toLower` stand in for the Python
unicode-aware predicates). -/
def safeName (name : Str) : Str :=
  (name.map (fun c => if c.isAlphanum then c else '_')).map Char.toLower

/-- Chapter filename of `CombineTutorial.prep` (src/nodes.py:1426):
`f"{i+1:02d}_{safe_name}.md"` for position `i` in the chapter order. -/
def chapterFilename (i : Nat) (name : Str) : Str :=
  pad2 (i + 1) ++ ['_'] ++ safeName name ++ (".md".data)

/-- A navigation entry built by `CombineTutorial.prep`
(src/nodes.py:1429-1434, 1446-1451). -/
structure ChapterLink : Type where
  number : Nat
  title : Str
  filename : Str
  description : Str
deriving DecidableEq

/-- The navigation entry for one chapter-order position
(src/nodes.py:1429-1434). -/
def mkChapterLink (abstractions : List Abstraction) (pos : Nat) (ai : Int) :
    ChapterLink :=
  ⟨pos + 1, (abstractions.getD ai.toNat ⟨[], [], []⟩).name,
   chapterFilename pos (abstractions.getD ai.toNat ⟨[], [], []⟩).name,
   (abstractions.getD ai.toNat ⟨[], [], []⟩).description⟩

/-- Chapter-link loop of `CombineTutorial.prep` (src/nodes.py:1416-1441):
one entry per chapter-order position whose abstraction index is valid and
whose chapter content exists; invalid positions are skipped with a
warning. -/
def chapterLinksAux (abstractions : List Abstraction) (contentLen : Nat) :
    List Int → Nat → List ChapterLink
  | [], _ => []
  | ai :: rest, i =>
    if 0 ≤ ai ∧ ai < (abstractions.length : Int) ∧ i < contentLen then
      mkChapterLink abstractions i ai ::
        chapterLinksAux abstractions contentLen rest (i + 1)
    else chapterLinksAux abstractions contentLen rest (i + 1)

/-- The fixed trailing navigation entry for the beginner-friendly overview
(src/nodes.py:1445-1451), numbered one past the chapter entries. -/
def overviewLink (k : Nat) : ChapterLink :=
  ⟨k + 1, "Beginner-Friendly Overview".data, "beginner_friendly_episode.md".data,
   ("A high-level, simplified overview of the project for non-technical readers.".data)⟩

/-- Navigation-entry construction of `CombineTutorial.prep`
(src/nodes.py:1412-1451): the per-chapter entries followed by the fixed
overview entry. -/
def combineTutorial_chapterLinks (abstractions : List Abstraction)
    (chapterOrder : List Int) (chaptersContent : List Str) : List ChapterLink :=
  let links := chapterLinksAux abstractions chaptersContent.length chapterOrder 0
  links ++ [overviewLink links.length]

theorem chapterLinksAux_eq (abstractions : List Abstraction) (clen : Nat)
    (order : List Int) (i : Nat)
    (hb : ∀ ai ∈ order, 0 ≤ ai ∧ ai < (abstractions.length : Int))
    (hc : i + order.length ≤ clen) :
    chapterLinksAux abstractions clen order i =
      (List.range order.length).map
        (fun j => mkChapterLink abstractions (i + j) (order.getD j 0)) := by
  induction order generalizing i with
  | nil => simp [chapterLinksAux]
  | cons ai rest ih =>
    have hhead := hb ai (by simp)
    have hcond : 0 ≤ ai ∧ ai < (abstractions.length : Int) ∧ i < clen := by
      refine ⟨hhead.1, hhead.2, ?_⟩
      simp only [List.length_cons] at hc
      omega
    simp only [chapterLinksAux, if_pos hcond]
    have hrest := ih (i + 1) (fun a ha => hb a (by simp [ha]))
      (by simp only [List.length_cons] at hc; omega)
    rw [hrest, List.length_cons, List.range_succ_eq_map, List.map_cons,
      List.map_map]
    refine congrArg₂ _ ?_ ?_
    · simp [mkChapterLink]
    · refine List.map_congr_left (fun j hj => ?_)
      simp only [Function.comp_apply, List.getD_cons_succ]
      refine congrArg₂ _ ?_ rfl
      omega

/-- C8: on a valid run (every chapter-order index in range, one chapter
content per order position) the navigation list is exactly one entry per
chapter-order position — numbered 1..K in chapter order, each with
filename `{2-digit zero-padded chapter number}_{sanitized name}.md` —
followed by the fixed trailing beginner-friendly overview entry numbered
K+1, for K+1 entries in total. -/
theorem combineTutorial_chapterLinks_spec (abstractions : List Abstraction)
    (chapterOrder : List Int) (chaptersContent : List Str)
    (hb : ∀ ai ∈ chapterOrder, 0 ≤ ai ∧ ai < (abstractions.length : Int))
    (hlen : chapterOrder.length ≤ chaptersContent.length) :
    combineTutorial_chapterLinks abstractions chapterOrder chaptersContent =
      (List.range chapterOrder.length).map
        (fun j => mkChapterLink abstractions j (chapterOrder.getD j 0)) ++
      [overviewLink chapterOrder.length] ∧
    (combineTutorial_chapterLinks abstractions chapterOrder chaptersContent).length =
      chapterOrder.length + 1 := by
  have haux := chapterLinksAux_eq abstractions chaptersContent.length chapterOrder 0
    hb (by omega)
  have hmain : combineTutorial_chapterLinks abstractions chapterOrder chaptersContent =
      (List.range chapterOrder.length).map
        (fun j => mkChapterLink abstractions j (chapterOrder.getD j 0)) ++
      [overviewLink chapterOrder.length] := by
    simp only [combineTutorial_chapterLinks, haux, List.length_map,
      List.length_range]
    refine congrArg₂ _ (List.map_congr_left fun j hj => ?_) rfl
    rw [Nat.zero_add]
  refine ⟨hmain, ?_⟩
  rw [hmain]
  simp

/-- C8 witness: a concrete two-chapter run with order `[1, 0]` yields the
entries `01_api.md`, `02_data_store_.md` (non-alphanumeric characters
mapped to underscores, lowercased, 2-digit zero-padded numbers) and the
trailing overview entry numbered 3. -/
theorem combineTutorial_chapterLinks_spec_witness :
    combineTutorial_chapterLinks
        [⟨"Data Store!".data, "d".data, []⟩, ⟨"API".data, "e".data, []⟩]
        [1, 0] ["c1".data, "c2".data] =
      [⟨1, "API".data, "01_api.md".data, "e".data⟩,
       ⟨2, "Data Store!".data, "02_data_store_.md".data, "d".data⟩,
       ⟨3, "Beginner-Friendly Overview".data, "beginner_friendly_episode.md".data,
        ("A high-level, simplified overview of the project for non-technical readers.".data)⟩] := by
  have h := (combineTutorial_chapterLinks_spec
    [⟨"Data Store!".data, "d".data, []⟩, ⟨"API".data, "e".data, []⟩]
    [1, 0] ["c1".data, "c2".data] (by decide) (by decide)).1
  rw [h]
  decide

/-- The fixed watermark appended to every written artifact
(src/nodes.py:1763). -/
def watermark : Str := "\n\nWiki generated by: CoDoC".data

/-- `publish_long_form_content_event` (src/utils/nostr_publisher.py:11-67):
with no `NOSTR_PRIVATE_KEY` the function prints an error and returns;
otherwise the external nostr-sdk operations (`Keys.parse`, `add_relay`,
`connect`, `send_event_builder`) either complete — yielding a per-relay
(success, failed) report that is only printed, lines 61-64, before a
normal return — or raise, modelled by `send = Except.error`, and the
function has no handler, so the exception propagates. -/
def publish_long_form_content_event (privateKey : Option Str)
    (send : Except String (List Str × List Str)) : Except String Unit :=
  match privateKey with
  | none => .ok ()
  | some _ =>
    match send with
    | .error e => .error e
    | .ok _ => .ok ()

/-- Outcome of `CombineTutorial.exec`: files written locally (content with
watermark), publish calls attempted, and the exception that aborted the
loop, if any. -/
structure WriteOutcome : Type where
  written : List (Str × Str)
  published : List Str
  err : Option String
deriving DecidableEq

/-- Artifact loop of `CombineTutorial.exec` (src/nodes.py:1765-1799): for
each artifact, when publishing is enabled the publish call runs first
(not wrapped in try/except — an exception aborts the stage before the
local write), then the artifact is written with the watermark. -/
def combineTutorial_writeLoop (publish : Bool) (pub : Str → Except String Unit) :
    List (Str × Str) → WriteOutcome
  | [] => ⟨[], [], none⟩
  | (fn, content) :: rest =>
    if publish then
      match pub fn with
      | .error e => ⟨[], [fn], some e⟩
      | .ok _ =>
        let o := combineTutorial_writeLoop publish pub rest
        ⟨(fn, content ++ watermark) :: o.written, fn :: o.published, o.err⟩
    else
      let o := combineTutorial_writeLoop publish pub rest
      ⟨(fn, content ++ watermark) :: o.written, o.published, o.err⟩

/-- The artifact sequence of `CombineTutorial.exec` (src/nodes.py:1765-1799):
the landing document, every chapter file, and the beginner-friendly
overview when its content is non-empty. -/
def combineTutorial_artifacts (indexContent : Str)
    (chapterFiles : List (Str × Str)) (episode : Str) : List (Str × Str) :=
  ("index.md".data, indexContent) :: chapterFiles ++
    (if episode = [] then [] else [("beginner_friendly_episode.md".data, episode)])

/-- `CombineTutorial.exec` over its artifact sequence. -/
def combineTutorial_exec (publish : Bool) (pub : Str → Except String Unit)
    (indexContent : Str) (chapterFiles : List (Str × Str)) (episode : Str) :
    WriteOutcome :=
  combineTutorial_writeLoop publish pub
    (combineTutorial_artifacts indexContent chapterFiles episode)

/-- C9 counterexample: with publishing enabled and a publish call that
raises (here: the publisher given a private key whose parsing fails), the
landing document and the chapter are not written locally — a publish
failure does prevent the artifact (and every later artifact) from being
written, because the publish call precedes the write and is not wrapped
in try/except. -/
theorem combineTutorial_exec_publish_exception_blocks_writes :
    combineTutorial_exec true
      (fun _ => publish_long_form_content_event (some ("badkey".data))
        (.error "Keys.parse failed"))
      ("idx".data) [("01_a.md".data, "c".data)] ("ep".data) =
      ⟨[], ["index.md".data], some "Keys.parse failed"⟩ := by rfl

theorem combineTutorial_writeLoop_all_ok (pub : Str → Except String Unit)
    (arts : List (Str × Str)) (h : ∀ a ∈ arts, pub a.1 = .ok ()) :
    combineTutorial_writeLoop true pub arts =
      ⟨arts.map (fun p => (p.1, p.2 ++ watermark)), arts.map Prod.fst, none⟩ := by
  induction arts with
  | nil => rfl
  | cons a rest ih =>
    obtain ⟨fn, content⟩ := a
    have hh : pub fn = .ok () := h (fn, content) (by simp)
    simp only [combineTutorial_writeLoop, if_pos rfl, hh,
      ih (fun b hb => h b (by simp [hb]))]
    simp

/-- C9 amended: one publish call is made per artifact, before that
artifact's local write.  A publish call that returns — including when the
relay report lists failures (the report is only printed) and when the
private key is missing — never blocks any local write: when every publish
call returns, every artifact (landing document, each chapter, overview)
is written.  But a publish call that raises aborts the stage, so that
artifact and all later artifacts are not written locally. -/
theorem combineTutorial_exec_publish_best_effort
    (key : Option Str) (report : List Str × List Str)
    (send : Except String (List Str × List Str))
    (pub : Str → Except String Unit) (indexContent : Str)
    (chapterFiles : List (Str × Str)) (episode : Str) :
    (publish_long_form_content_event none send = .ok ()) ∧
    (publish_long_form_content_event key (.ok report) = .ok ()) ∧
    ((∀ a ∈ combineTutorial_artifacts indexContent chapterFiles episode,
        pub a.1 = .ok ()) →
      combineTutorial_exec true pub indexContent chapterFiles episode =
        ⟨(combineTutorial_artifacts indexContent chapterFiles episode).map
            (fun p => (p.1, p.2 ++ watermark)),
         (combineTutorial_artifacts indexContent chapterFiles episode).map
            Prod.fst, none⟩) ∧
    (∀ fn content rest e, pub fn = .error e →
      combineTutorial_writeLoop true pub ((fn, content) :: rest) =
        ⟨[], [fn], some e⟩) := by
  refine ⟨rfl, ?_, ?_, ?_⟩
  · cases key <;> rfl
  · intro h
    exact combineTutorial_writeLoop_all_ok pub _ h
  · intro fn content rest e he
    simp only [combineTutorial_writeLoop, if_pos rfl, he]
    simp

/-- C9 witness: with a publisher that completes while reporting a relay
failure for every artifact, both artifacts are still written locally with
the watermark, and one publish call is made per artifact. -/
theorem combineTutorial_exec_publish_best_effort_witness :
    combineTutorial_exec true
      (fun _ => publish_long_form_content_event (some ("k".data))
        (.ok ([], ["relay down".data])))
      ("idx".data) [("01_a.md".data, "c".data)] [] =
      ⟨[("index.md".data, "idx".data ++ watermark),
        ("01_a.md".data, "c".data ++ watermark)],
       ["index.md".data, "01_a.md".data], none⟩ := by
  have h := (combineTutorial_exec_publish_best_effort (some ("k".data))
    ([], ["relay down".data]) (.ok ([], ["relay down".data]))
    (fun _ => publish_long_form_content_event (some ("k".data))
      (.ok ([], ["relay down".data])))
    ("idx".data) [("01_a.md".data, "c".data)] []).2.2.1
    (fun a ha => rfl)
  rw [h]
  rfl
